import Mathlib

/-!
Verification of the `conclave` repository's cardinal-data scraper
(`get_cardinal_data.py`) against its natural-language specification.

Strings are embedded as lists of Unicode code points (`List Nat`), so the
Python string operations (`strip`, `replace`, `lower`, substring test `in`)
become explicit functions on lists of naturals.  The pandas `DataFrame` is
embedded as a list of column headers plus a list of rows, and `pd.concat`
as an outer alignment on column labels.  `pd.read_html` and the HTTP layer
are external libraries: they enter the model as parameters (a `parse`
oracle and a `FetchEnv` describing the network response).
-/

namespace Conclave

/-- Code points of a string literal, for writing concrete inputs. -/
def codes (s : String) : List Nat := s.data.map Char.toNat

/-! ## Python string primitives on code-point lists -/

/-- Python `str.strip` whitespace: space, \t, \n, \r, \v, \f. -/
def pySpace (n : Nat) : Bool :=
  n = 32 || n = 9 || n = 10 || n = 13 || n = 11 || n = 12

/-- Python `str.strip()`: drop leading and trailing whitespace. -/
def pyStrip (l : List Nat) : List Nat :=
  ((l.dropWhile pySpace).reverse.dropWhile pySpace).reverse

/-- One character of Python `str.replace(" ", "_")`: the pattern and the
replacement are single characters, so the replace is a character map. -/
def underscoreSpace (n : Nat) : Nat := if n = 32 then 95 else n

/-- One character of Python `str.lower()`, restricted to ASCII letters
(the only case the scraped data exercises). -/
def lowerCode (n : Nat) : Nat := if 65 ≤ n ∧ n ≤ 90 then n + 32 else n

/-- Python `str(c).strip().replace(" ", "_").lower()` from `flatten_col`. -/
def pyNorm (l : List Nat) : List Nat :=
  ((pyStrip l).map underscoreSpace).map lowerCode

/-- The per-character action of `.replace(" ", "_").lower()`. -/
def normCode (n : Nat) : Nat := lowerCode (underscoreSpace n)

/-- A list whose first character, if any, is not Python whitespace. -/
def Front (l : List Nat) : Prop := ∀ a, l.head? = some a → pySpace a = false

/-- A list whose last character, if any, is not Python whitespace. -/
def Back (l : List Nat) : Prop := ∀ a, l.getLast? = some a → pySpace a = false

/-- Does `hay` start with `needle`? -/
def leadsWith : List Nat → List Nat → Bool
  | _, [] => true
  | [], _ :: _ => false
  | a :: as, b :: bs => a == b && leadsWith as bs

/-- Python substring containment `needle in hay`. -/
def hasSub : List Nat → List Nat → Bool
  | [], needle => needle.isEmpty
  | a :: t, needle => leadsWith (a :: t) needle || hasSub t needle

/-- Python `"_".join(parts)`. -/
def joinUnder : List (List Nat) → List Nat
  | [] => []
  | [x] => x
  | x :: y :: t => x ++ 95 :: joinUnder (y :: t)

/-! ## `flatten_col` -/

/-- A pandas column label: a plain string or a tuple of strings
(multi-level header). -/
inductive Header where
  | single : List Nat → Header
  | multi : List (List Nat) → Header
deriving DecidableEq

/-- The function `flatten_col` from `get_cardinal_data.py`: a tuple label keeps only the
truthy parts that differ from the literal string `"nan"`, normalizes each
part and joins them with underscores; a plain label is just normalized. -/
def flatten_col : Header → List Nat
  | .multi parts =>
      joinUnder (((parts.filter
        (fun c => !c.isEmpty && !(c == codes "nan")))).map pyNorm)
  | .single s => pyNorm s

/-- A flattened name, re-injected as a plain column label. -/
def flattenLabel (c : Header) : Header := Header.single (flatten_col c)

/-! ## HTML-side model -/

/-- A `tr` element: its `style` attribute (`""` when absent, as in
`row.get("style", "")`) and its cell texts. -/
structure HtmlRow where
  style : List Nat
  cells : List (List Nat)
deriving DecidableEq

/-- A `table` element: its `tr` elements in document order. -/
structure HtmlTable where
  trs : List HtmlRow
deriving DecidableEq

/-- An input document: its tables in document order, each tagged with
whether it carries the `wikitable` marker class. -/
structure Document where
  tables : List (Bool × HtmlTable)
deriving DecidableEq

/-- The call `soup.find_all` selecting the tables of class `wikitable`. -/
def markedTables (doc : Document) : List HtmlTable :=
  doc.tables.filterMap (fun p => if p.1 then some p.2 else none)

/-! ## DataFrame model -/

/-- A cell value: a parsed string, the synthetic boolean eligibility flag,
or the `NaN` a `pd.concat` outer alignment fills in. -/
inductive Cell where
  | str : List Nat → Cell
  | boolv : Bool → Cell
  | na : Cell
deriving DecidableEq

/-- A pandas `DataFrame`: ordered column labels and ordered rows, each row
listing its cells in column order. -/
structure DataFrame where
  cols : List Header
  rows : List (List Cell)
deriving DecidableEq

/-- The value a row holds under the first column with the given label
(`Cell.na` when the label is absent). -/
def lookupCell (cols : List Header) (row : List Cell) (h : Header) : Cell :=
  match cols, row with
  | c :: cs, v :: vs => if c = h then v else lookupCell cs vs h
  | _, _ => Cell.na

/-- The values of a named column, in row order (`none` if absent). -/
def getColumn (df : DataFrame) (h : Header) : Option (List Cell) :=
  if h ∈ df.cols then some (df.rows.map (fun r => lookupCell df.cols r h))
  else none

/-- Replace, in one row, the cell under the first column with label `h`. -/
def replaceCellAt (cols : List Header) (h : Header) (row : List Cell)
    (v : Cell) : List Cell :=
  match cols, row with
  | c :: cs, x :: xs =>
      if c = h then v :: xs else x :: replaceCellAt cs h xs v
  | _, _ => row

/-- Python `df[h] = vals` for a list of exactly `len(df)` values: overwrite the
column when the label exists, otherwise append it on the right. -/
def setCol (df : DataFrame) (h : Header) (vals : List Cell) : DataFrame :=
  if h ∈ df.cols then
    { cols := df.cols,
      rows := (df.rows.zip vals).map (fun p => replaceCellAt df.cols h p.1 p.2) }
  else
    { cols := df.cols ++ [h],
      rows := (df.rows.zip vals).map (fun p => p.1 ++ [p.2]) }

/-! ## Eligibility extraction -/

/-- One iteration of the style inspection: `False` exactly when the row's
`style` contains the literal substring `background:#FFCCCC` or
`background-color:#FFCCCC`. -/
def rowEligible (style : List Nat) : Bool :=
  if hasSub style (codes "background:#FFCCCC")
      || hasSub style (codes "background-color:#FFCCCC") then false
  else true

/-- The `eligibility` list for a table: one flag per `tr`, then
`eligibility[1:]` to skip the (single assumed) header row. -/
def tableEligibility (t : HtmlTable) : List Bool :=
  (t.trs.map (fun r => rowEligible r.style)).drop 1

/-- The per-table body of the extraction loop: attach the flags as column
`eligible` only when their count matches the parsed row count. -/
def processTable (parsed : DataFrame) (t : HtmlTable) : DataFrame :=
  let eligibility := tableEligibility t
  if eligibility.length = parsed.rows.length then
    setCol parsed (Header.single (codes "eligible"))
      (eligibility.map Cell.boolv)
  else parsed

/-! ## `pd.concat` -/

/-- First-occurrence deduplication with the labels already kept in `seen`. -/
def dkfAux (seen : List Header) : List Header → List Header
  | [] => []
  | a :: t => if a ∈ seen then dkfAux seen t else a :: dkfAux (a :: seen) t

/-- First-occurrence deduplication, the label order `pd.concat` gives the
union of column sets. -/
def dkf (l : List Header) : List Header := dkfAux [] l

/-- Union of the frames' column labels in order of first appearance. -/
def unionCols (dfs : List DataFrame) : List Header :=
  dkf (dfs.flatMap (fun d => d.cols))

/-- Re-express one row over the union label list, filling `NaN` for labels
its frame lacks. -/
def alignRow (cols : List Header) (u : List Header) (row : List Cell) :
    List Cell :=
  u.map (lookupCell cols row)

/-- Pandas `pd.concat(dfs, ignore_index=True)`: raises (here `none`) on an empty
list, otherwise stacks all rows over the union of the column labels. -/
def pdConcat (dfs : List DataFrame) : Option DataFrame :=
  match dfs with
  | [] => none
  | _ =>
      some { cols := unionCols dfs,
             rows := dfs.flatMap
               (fun d => d.rows.map (alignRow d.cols (unionCols dfs))) }

/-- The rename `cardinals.columns = [flatten_col(c) for c in cardinals.columns]`. -/
def renameFlatten (df : DataFrame) : DataFrame :=
  { cols := df.cols.map flattenLabel,
    rows := df.rows }

/-! ## The extractor -/

/-- The extraction phase of `get_cardinals_data`, parametric in the
`pd.read_html` oracle `parse`: filter the marked tables, process each, then
concatenate and flatten the column labels of the combined frame. -/
def get_cardinals_data (parse : HtmlTable → DataFrame) (doc : Document) :
    Option DataFrame :=
  let dfs := (markedTables doc).map (fun t => processTable (parse t) t)
  (pdConcat dfs).map renameFlatten

/-- The algorithm as §4.2 of the spec orders it: flatten every table's
column labels independently *before* concatenation. -/
def spec_extract (parse : HtmlTable → DataFrame) (doc : Document) :
    Option DataFrame :=
  let dfs := (markedTables doc).map
    (fun t => renameFlatten (processTable (parse t) t))
  pdConcat dfs

/-- Modelled from the spec: `pd.read_html` is an external library, so its
behavior is not in the repository; §4.2 step 2 says the first row of the
table defines the column headers and the remaining rows are body rows. -/
def simpleParse (t : HtmlTable) : DataFrame :=
  match t.trs with
  | [] => { cols := [], rows := [] }
  | hd :: tl =>
      { cols := hd.cells.map Header.single,
        rows := tl.map (fun r => r.cells.map Cell.str) }

/-! ## Fetcher/cache model -/

/-- The network's behavior for the one `httpx.get`: response status and
body. -/
structure FetchEnv where
  status : Nat
  body : List Nat
deriving DecidableEq

/-- Errors of `httpx.Response.raise_for_status`: it raises unless the status is a 2xx
success. -/
inductive FetchError where
  | httpStatus : Nat → FetchError
deriving DecidableEq

/-- Outcome of one `get_cardinals_data` fetch phase: the returned markup or
the raised error, the cache file afterwards, and how many network calls
were made. -/
structure FetchResult where
  outcome : Except FetchError (List Nat)
  cacheAfter : Option (List Nat)
  networkCalls : Nat

/-- The fetch/cache phase of `get_cardinals_data`: with `force_refresh`
false and an existing cache file, read it back; otherwise perform the GET,
raise on a non-2xx status (before touching the cache), and on success write
the body to the cache and return it. -/
def fetchPage (force_refresh : Bool) (cache : Option (List Nat))
    (env : FetchEnv) : FetchResult :=
  match force_refresh, cache with
  | false, some c =>
      { outcome := .ok c, cacheAfter := some c, networkCalls := 0 }
  | _, _ =>
      if 200 ≤ env.status ∧ env.status ≤ 299 then
        { outcome := .ok env.body, cacheAfter := some env.body,
          networkCalls := 1 }
      else
        { outcome := .error (FetchError.httpStatus env.status),
          cacheAfter := cache, networkCalls := 1 }

/-! ## Spec-side reading of the marker test, and concrete inputs -/

/-- ASCII lower-casing of a whole string, for case-insensitive comparison. -/
def lowerAll (l : List Nat) : List Nat := l.map lowerCode

/-- Modelled from the spec: §4.2 step 3 asks for "case- and
format-insensitive equivalents" of the two background-color markers; the
case-insensitive reading compares the lower-cased style against the
lower-cased markers. -/
def specMarkedIneligible (style : List Nat) : Bool :=
  hasSub (lowerAll style) (lowerAll (codes "background:#FFCCCC"))
    || hasSub (lowerAll style) (lowerAll (codes "background-color:#FFCCCC"))

/-- A marked table with one header row and 3 body rows, the second body row
carrying the ineligibility style. -/
def tblC1 : HtmlTable :=
  { trs := [
      { style := [], cells := [codes "Name", codes "Country"] },
      { style := [], cells := [codes "Alice", codes "X"] },
      { style := codes "background:#FFCCCC", cells := [codes "Bob", codes "Y"] },
      { style := [], cells := [codes "Carl", codes "Z"] } ] }

/-- A document whose only table is marked. -/
def docC1 : Document := { tables := [(true, tblC1)] }

/-- A document whose only table lacks the `wikitable` marker class. -/
def docNoMark : Document := { tables := [(false, tblC1)] }

/-- A marked table whose raw header `A B` flattens to `a_b`. -/
def tblA : HtmlTable :=
  { trs := [
      { style := [], cells := [codes "A B"] },
      { style := [], cells := [codes "u"] } ] }

/-- A marked table whose raw header is already the flat name `a_b`. -/
def tblB : HtmlTable :=
  { trs := [
      { style := [], cells := [codes "a_b"] },
      { style := [], cells := [codes "v"] } ] }

/-- Two marked tables whose distinct raw headers collide after
flattening. -/
def docAB : Document := { tables := [(true, tblA), (true, tblB)] }

/-- A parsed frame with 3 rows, for the flag-count-mismatch case. -/
def parsedW : DataFrame :=
  { cols := [Header.single (codes "Name")],
    rows := [[Cell.str (codes "Alice")], [Cell.str (codes "Bob")],
             [Cell.str (codes "Carl")]] }

/-- A table with 3 `tr` elements, so only 2 derived flags: a count mismatch
against the 3 parsed rows of `parsedW`. -/
def tblW : HtmlTable :=
  { trs := [
      { style := [], cells := [codes "Name"] },
      { style := [], cells := [codes "Alice"] },
      { style := [], cells := [codes "Bob"] } ] }

/-- A marked table with 2 body rows. -/
def tbl2 : HtmlTable :=
  { trs := [
      { style := [], cells := [codes "Name"] },
      { style := [], cells := [codes "Alice"] },
      { style := [], cells := [codes "Bob"] } ] }

/-- A marked table with 3 body rows. -/
def tbl3 : HtmlTable :=
  { trs := [
      { style := [], cells := [codes "Name"] },
      { style := [], cells := [codes "Carl"] },
      { style := [], cells := [codes "Dana"] },
      { style := [], cells := [codes "Eve"] } ] }

/-- A document with two marked tables of 2 and 3 body rows. -/
def doc23 : Document := { tables := [(true, tbl2), (true, tbl3)] }

/-- The expected Output Dataset for `doc23`: 5 rows in document order, the
first table's rows first. -/
def expected23 : DataFrame :=
  { cols := [Header.single (codes "name"), Header.single (codes "eligible")],
    rows := [
      [Cell.str (codes "Alice"), Cell.boolv true],
      [Cell.str (codes "Bob"), Cell.boolv true],
      [Cell.str (codes "Carl"), Cell.boolv true],
      [Cell.str (codes "Dana"), Cell.boolv true],
      [Cell.str (codes "Eve"), Cell.boolv true]] }

/-! ## Lemmas: character-level normalization -/

theorem pySpace_false_iff (n : Nat) : pySpace n = false ↔
    n ≠ 32 ∧ n ≠ 9 ∧ n ≠ 10 ∧ n ≠ 13 ∧ n ≠ 11 ∧ n ≠ 12 := by
  simp [pySpace, and_assoc]

theorem normCode_idem (n : Nat) : normCode (normCode n) = normCode n := by
  simp only [normCode, underscoreSpace, lowerCode]
  split_ifs <;> omega

theorem normCode_not_space (n : Nat) (h : pySpace n = false) :
    pySpace (normCode n) = false := by
  rw [pySpace_false_iff] at h ⊢
  simp only [normCode, underscoreSpace, lowerCode]
  split_ifs <;> omega

theorem pyNorm_eq_map (l : List Nat) : pyNorm l = (pyStrip l).map normCode := by
  simp only [pyNorm, List.map_map]
  rfl

/-! ## Lemmas: strip structure -/

theorem front_dropWhile (l : List Nat) : Front (l.dropWhile pySpace) := by
  induction l with
  | nil => intro a h; simp [List.dropWhile] at h
  | cons x t ih =>
      intro a h
      rw [List.dropWhile_cons] at h
      by_cases hx : pySpace x
      · rw [if_pos hx] at h
        exact ih a h
      · rw [if_neg hx] at h
        simp only [List.head?_cons, Option.some.injEq] at h
        subst h
        exact Bool.eq_false_iff.mpr hx

theorem dropWhile_of_front (l : List Nat) (h : Front l) :
    l.dropWhile pySpace = l := by
  cases l with
  | nil => rfl
  | cons x t =>
      have hx : pySpace x = false := h x rfl
      rw [List.dropWhile_cons, hx]
      simp

theorem getLast?_dropWhile (l : List Nat) :
    l.dropWhile pySpace = [] ∨
      (l.dropWhile pySpace).getLast? = l.getLast? := by
  induction l with
  | nil => exact Or.inl rfl
  | cons x t ih =>
      rw [List.dropWhile_cons]
      by_cases hx : pySpace x
      · rw [if_pos hx]
        rcases ih with h | h
        · exact Or.inl h
        · cases t with
          | nil => exact Or.inl rfl
          | cons y t2 =>
              right
              rw [h, List.getLast?_cons_cons]
      · rw [if_neg hx]
        exact Or.inr rfl

theorem front_of_back_reverse (l : List Nat) (h : Back l) : Front l.reverse := by
  intro a ha
  rw [List.head?_reverse] at ha
  exact h a ha

theorem back_of_front_reverse (l : List Nat) (h : Front l) : Back l.reverse := by
  intro a ha
  rw [List.getLast?_reverse] at ha
  exact h a ha

theorem pyStrip_eq_self (l : List Nat) (hf : Front l) (hb : Back l) :
    pyStrip l = l := by
  unfold pyStrip
  rw [dropWhile_of_front l hf, dropWhile_of_front l.reverse
    (front_of_back_reverse l hb), List.reverse_reverse]

theorem front_pyStrip (l : List Nat) : Front (pyStrip l) := by
  intro a ha
  unfold pyStrip at ha
  rw [List.head?_reverse] at ha
  rcases getLast?_dropWhile (l.dropWhile pySpace).reverse with h | h
  · rw [h] at ha; simp at ha
  · rw [h, List.getLast?_reverse] at ha
    exact front_dropWhile l a ha

theorem back_pyStrip (l : List Nat) : Back (pyStrip l) := by
  intro a ha
  unfold pyStrip at ha
  rw [List.getLast?_reverse] at ha
  exact front_dropWhile (l.dropWhile pySpace).reverse a ha

theorem front_map_normCode (l : List Nat) (h : Front l) :
    Front (l.map normCode) := by
  intro a ha
  rw [List.head?_map] at ha
  obtain ⟨b, hb, rfl⟩ := Option.map_eq_some'.mp ha
  exact normCode_not_space b (h b hb)

theorem back_map_normCode (l : List Nat) (h : Back l) :
    Back (l.map normCode) := by
  intro a ha
  rw [List.getLast?_map] at ha
  obtain ⟨b, hb, rfl⟩ := Option.map_eq_some'.mp ha
  exact normCode_not_space b (h b hb)

theorem map_normCode_pyNorm (l : List Nat) :
    (pyNorm l).map normCode = pyNorm l := by
  rw [pyNorm_eq_map, List.map_map]
  have h : normCode ∘ normCode = normCode := funext normCode_idem
  rw [h]

theorem front_pyNorm (l : List Nat) : Front (pyNorm l) := by
  rw [pyNorm_eq_map]
  exact front_map_normCode _ (front_pyStrip l)

theorem back_pyNorm (l : List Nat) : Back (pyNorm l) := by
  rw [pyNorm_eq_map]
  exact back_map_normCode _ (back_pyStrip l)

theorem pyNorm_idem (l : List Nat) : pyNorm (pyNorm l) = pyNorm l := by
  rw [pyNorm_eq_map (pyNorm l),
    pyStrip_eq_self (pyNorm l) (front_pyNorm l) (back_pyNorm l),
    map_normCode_pyNorm]

/-! ## Lemmas: the underscore join -/

theorem joinUnder_cons_cons (x y : List Nat) (t : List (List Nat)) :
    joinUnder (x :: y :: t) = x ++ 95 :: joinUnder (y :: t) := rfl

theorem map_normCode_joinUnder (ys : List (List Nat))
    (h : ∀ y ∈ ys, y.map normCode = y) :
    (joinUnder ys).map normCode = joinUnder ys := by
  induction ys with
  | nil => rfl
  | cons x t ih =>
      cases t with
      | nil => exact h x (by simp)
      | cons y t2 =>
          rw [joinUnder_cons_cons, List.map_append, List.map_cons]
          have h95 : normCode 95 = 95 := by decide
          rw [h95, h x (by simp),
            ih (fun z hz => h z (List.mem_cons_of_mem x hz))]

theorem front_joinUnder (ys : List (List Nat)) (h : ∀ y ∈ ys, Front y) :
    Front (joinUnder ys) := by
  induction ys with
  | nil => intro a ha; simp [joinUnder] at ha
  | cons x t ih =>
      cases t with
      | nil => exact h x (by simp)
      | cons y t2 =>
          intro a ha
          rw [joinUnder_cons_cons] at ha
          cases x with
          | nil =>
              simp only [List.nil_append, List.head?_cons,
                Option.some.injEq] at ha
              subst ha; decide
          | cons b xs =>
              simp only [List.cons_append, List.head?_cons,
                Option.some.injEq] at ha
              subst ha
              exact h (b :: xs) (by simp) b rfl

theorem back_joinUnder (ys : List (List Nat)) (h : ∀ y ∈ ys, Back y) :
    Back (joinUnder ys) := by
  induction ys with
  | nil => intro a ha; simp [joinUnder] at ha
  | cons x t ih =>
      cases t with
      | nil => exact h x (by simp)
      | cons y t2 =>
          intro a ha
          rw [joinUnder_cons_cons,
            List.getLast?_append_of_ne_nil x (List.cons_ne_nil 95 _)] at ha
          cases hJ : joinUnder (y :: t2) with
          | nil =>
              rw [hJ] at ha
              simp only [List.getLast?_singleton, Option.some.injEq] at ha
              subst ha; decide
          | cons c cs =>
              rw [hJ, List.getLast?_cons_cons] at ha
              have hB := ih (fun z hz => h z (List.mem_cons_of_mem x hz))
              rw [hJ] at hB
              exact hB a ha

/-! ## Lemmas: flatten_col is idempotent -/

theorem flatten_col_idem (h : Header) :
    flatten_col (flattenLabel h) = flatten_col h := by
  cases h with
  | single s => exact pyNorm_idem s
  | multi parts =>
      show pyNorm (joinUnder ((parts.filter
        (fun c => !c.isEmpty && !(c == codes "nan"))).map pyNorm)) = _
      have hF : Front (joinUnder ((parts.filter
          (fun c => !c.isEmpty && !(c == codes "nan"))).map pyNorm)) :=
        front_joinUnder _ (fun y hy => by
          obtain ⟨p, _, rfl⟩ := List.mem_map.mp hy
          exact front_pyNorm p)
      have hB : Back (joinUnder ((parts.filter
          (fun c => !c.isEmpty && !(c == codes "nan"))).map pyNorm)) :=
        back_joinUnder _ (fun y hy => by
          obtain ⟨p, _, rfl⟩ := List.mem_map.mp hy
          exact back_pyNorm p)
      rw [pyNorm_eq_map, pyStrip_eq_self _ hF hB]
      exact map_normCode_joinUnder _ (fun y hy => by
        obtain ⟨p, _, rfl⟩ := List.mem_map.mp hy
        exact map_normCode_pyNorm p)

/-! ## Lemmas: flattening labels commutes with concatenation when no two
distinct labels collide -/

theorem lookupCell_map_inj (cols : List Header) (row : List Cell) (h : Header)
    (hinj : ∀ c ∈ cols, flattenLabel c = flattenLabel h → c = h) :
    lookupCell (cols.map flattenLabel) row (flattenLabel h) =
      lookupCell cols row h := by
  induction cols generalizing row with
  | nil => rfl
  | cons c cs ih =>
      cases row with
      | nil => rfl
      | cons v vs =>
          simp only [List.map_cons, lookupCell]
          by_cases hc : c = h
          · rw [if_pos hc, if_pos (by rw [hc])]
          · rw [if_neg hc, if_neg (fun e => hc (hinj c (by simp) e))]
            exact ih vs (fun c' hc' e => hinj c' (List.mem_cons_of_mem c hc') e)

theorem dkfAux_subset (seen l : List Header) (x : Header)
    (hx : x ∈ dkfAux seen l) : x ∈ l := by
  induction l generalizing seen with
  | nil => simp [dkfAux] at hx
  | cons a t ih =>
      simp only [dkfAux] at hx
      by_cases ha : a ∈ seen
      · rw [if_pos ha] at hx
        exact List.mem_cons_of_mem a (ih seen hx)
      · rw [if_neg ha] at hx
        rcases List.mem_cons.mp hx with rfl | hx2
        · exact List.mem_cons_self _ _
        · exact List.mem_cons_of_mem a (ih (a :: seen) hx2)

theorem dkfAux_map_inj (l seen : List Header)
    (hinj : ∀ x ∈ seen ++ l, ∀ y ∈ seen ++ l,
      flattenLabel x = flattenLabel y → x = y) :
    dkfAux (seen.map flattenLabel) (l.map flattenLabel) =
      (dkfAux seen l).map flattenLabel := by
  induction l generalizing seen with
  | nil => rfl
  | cons a t ih =>
      simp only [List.map_cons, dkfAux]
      have hmem : (flattenLabel a ∈ seen.map flattenLabel) ↔ a ∈ seen := by
        constructor
        · intro hm
          obtain ⟨b, hb, he⟩ := List.mem_map.mp hm
          have hba : b = a := hinj b (List.mem_append.mpr (Or.inl hb)) a
            (List.mem_append.mpr (Or.inr (List.mem_cons_self a t))) he
          rwa [hba] at hb
        · exact fun hm => List.mem_map_of_mem flattenLabel hm
      by_cases ha : a ∈ seen
      · rw [if_pos ha, if_pos (hmem.mpr ha)]
        refine ih seen (fun x hx y hy e => hinj x ?_ y ?_ e)
        · rcases List.mem_append.mp hx with hs | ht
          · exact List.mem_append.mpr (Or.inl hs)
          · exact List.mem_append.mpr (Or.inr (List.mem_cons_of_mem a ht))
        · rcases List.mem_append.mp hy with hs | ht
          · exact List.mem_append.mpr (Or.inl hs)
          · exact List.mem_append.mpr (Or.inr (List.mem_cons_of_mem a ht))
      · rw [if_neg ha, if_neg (fun hm => ha (hmem.mp hm)), List.map_cons]
        have hstep : ∀ x, x ∈ (a :: seen) ++ t → x ∈ seen ++ a :: t := by
          intro x hx
          simp only [List.mem_append, List.mem_cons] at hx ⊢
          tauto
        have := ih (a :: seen) (fun x hx y hy e =>
          hinj x (hstep x hx) y (hstep y hy) e)
        simp only [List.map_cons] at this
        rw [this]

theorem flatMap_cols_map_rename (dfs : List DataFrame) :
    (dfs.map renameFlatten).flatMap (fun d => d.cols)
      = (dfs.flatMap (fun d => d.cols)).map flattenLabel := by
  induction dfs with
  | nil => rfl
  | cons d rest ih =>
      simp only [List.map_cons, List.flatMap_cons, List.map_append]
      rw [ih]
      rfl

theorem unionCols_map_inj (dfs : List DataFrame)
    (hinj : ∀ x ∈ dfs.flatMap (fun d => d.cols),
      ∀ y ∈ dfs.flatMap (fun d => d.cols),
      flattenLabel x = flattenLabel y → x = y) :
    unionCols (dfs.map renameFlatten) = (unionCols dfs).map flattenLabel := by
  unfold unionCols dkf
  rw [flatMap_cols_map_rename]
  exact dkfAux_map_inj _ [] hinj

theorem mem_unionCols_sub (dfs : List DataFrame) (h : Header)
    (hh : h ∈ unionCols dfs) : h ∈ dfs.flatMap (fun d => d.cols) :=
  dkfAux_subset [] _ h hh

theorem alignRow_map_inj (cols u : List Header) (row : List Cell)
    (hinj : ∀ c ∈ cols, ∀ h ∈ u, flattenLabel c = flattenLabel h → c = h) :
    alignRow (cols.map flattenLabel) (u.map flattenLabel) row =
      alignRow cols u row := by
  unfold alignRow
  rw [List.map_map]
  exact List.map_congr_left (fun h hh =>
    lookupCell_map_inj cols row h (fun c hc e => hinj c hc h hh e))

theorem pdConcat_map_rename (dfs : List DataFrame)
    (hinj : ∀ x ∈ dfs.flatMap (fun d => d.cols),
      ∀ y ∈ dfs.flatMap (fun d => d.cols),
      flattenLabel x = flattenLabel y → x = y) :
    pdConcat (dfs.map renameFlatten) = (pdConcat dfs).map renameFlatten := by
  cases dfs with
  | nil => rfl
  | cons d rest =>
      have hu := unionCols_map_inj (d :: rest) hinj
      simp only [pdConcat, List.map_cons, Option.map_some']
      congr 1
      have h1 : renameFlatten d :: rest.map renameFlatten
          = (d :: rest).map renameFlatten := rfl
      rw [h1, hu]
      show ({ cols := (unionCols (d :: rest)).map flattenLabel,
              rows := ((d :: rest).map renameFlatten).flatMap
                (fun d1 => d1.rows.map (alignRow d1.cols
                  ((unionCols (d :: rest)).map flattenLabel))) } : DataFrame)
          = { cols := (unionCols (d :: rest)).map flattenLabel,
              rows := (d :: rest).flatMap
                (fun d1 => d1.rows.map (alignRow d1.cols
                  (unionCols (d :: rest)))) }
      congr 1
      rw [List.flatMap_map]
      apply List.flatMap_congr
      intro d0 hd0
      show d0.rows.map (alignRow (d0.cols.map flattenLabel)
        ((unionCols (d :: rest)).map flattenLabel))
        = d0.rows.map (alignRow d0.cols (unionCols (d :: rest)))
      apply List.map_congr_left
      intro r _
      apply alignRow_map_inj
      intro c hc h hh e
      exact hinj c (List.mem_flatMap.mpr ⟨d0, hd0, hc⟩)
        h (mem_unionCols_sub (d :: rest) h hh) e

theorem pdConcat_rows_length (dfs : List DataFrame) (c : DataFrame)
    (h : pdConcat dfs = some c) :
    c.rows.length = (dfs.map (fun d => d.rows.length)).sum := by
  cases dfs with
  | nil => simp [pdConcat] at h
  | cons d rest =>
      simp only [pdConcat, Option.some.injEq] at h
      rw [← h]
      simp only [List.length_flatMap, List.map_map]
      congr 1
      apply List.map_congr_left
      intro d0 _
      simp [List.length_map]

/-! ## Claim theorems -/

/-- C1 (counterexample): the claim says a row is flagged ineligible exactly
when its style contains a case- and format-insensitive equivalent of the
marker; on the lower-cased style `background:#ffcccc` the code flags the
row eligible although the case-insensitive marker test matches, so the
claimed equivalence fails. -/
theorem C1_counterexample :
    ¬ (rowEligible (codes "background:#ffcccc") = false ↔
       specMarkedIneligible (codes "background:#ffcccc") = true) := by
  decide

/-- C1 (amended): a row is flagged ineligible exactly when its style
contains one of the two exact, case-sensitive literal substrings
`background:#FFCCCC` or `background-color:#FFCCCC`; the flags cover every
`tr` after the first (the assumed single header row); and for a marked
table with 3 body rows where only row 2's style carries
`background:#FFCCCC`, the eligibility sequence is `[true, false, true]`
and the dataset's `eligible` column equals it exactly. -/
theorem C1_amended :
    (∀ style : List Nat, rowEligible style = false ↔
      (hasSub style (codes "background:#FFCCCC") = true ∨
       hasSub style (codes "background-color:#FFCCCC") = true))
    ∧ (∀ t : HtmlTable,
        tableEligibility t = (t.trs.drop 1).map (fun r => rowEligible r.style))
    ∧ tableEligibility tblC1 = [true, false, true]
    ∧ (get_cardinals_data simpleParse docC1).bind
        (fun df => getColumn df (Header.single (codes "eligible")))
      = some [Cell.boolv true, Cell.boolv false, Cell.boolv true] := by
  refine ⟨?_, ?_, by decide, by decide⟩
  · intro style
    cases h1 : hasSub style (codes "background:#FFCCCC") <;>
      cases h2 : hasSub style (codes "background-color:#FFCCCC") <;>
        simp [rowEligible, h1, h2]
  · intro t
    unfold tableEligibility
    exact (List.map_drop _ _ 1).symm

/-- C2 (code bug): on a document with zero marked tables the claim and the
spec promise an empty dataset and no error, but the code reaches
`pd.concat` with an empty list, which raises `ValueError`; the model
returns `none` (an error) on both an unmarked-table document and an empty
document. -/
theorem C2_zero_tables_raises :
    get_cardinals_data simpleParse docNoMark = none ∧
    get_cardinals_data simpleParse { tables := [] } = none := by
  decide

/-- C3 (confirmed): whenever the derived flag count differs from the
parsed row count, the table's frame is passed through unchanged — same
columns, same rows, no `eligible` column added — and extraction continues
without error. -/
theorem C3_mismatch_drops_column (parsed : DataFrame) (t : HtmlTable)
    (hmis : (tableEligibility t).length ≠ parsed.rows.length) :
    processTable parsed t = parsed ∧
    (Header.single (codes "eligible") ∉ parsed.cols →
      Header.single (codes "eligible") ∉ (processTable parsed t).cols) := by
  have h : processTable parsed t = parsed := by
    simp only [processTable]
    rw [if_neg hmis]
  exact ⟨h, fun hn => by rw [h]; exact hn⟩

/-- C3 (witness): the spec's example, 2 derived flags against 3 parsed
rows, leaves the frame untouched. -/
theorem C3_mismatch_drops_column_witness :
    (tableEligibility tblW).length ≠ parsedW.rows.length ∧
    processTable parsedW tblW = parsedW := by
  have h := C3_mismatch_drops_column parsedW tblW (by decide)
  exact ⟨by decide, h.1⟩

/-- C4 (confirmed): column-name flattening is a pure function of the
header, idempotent — flattening twice equals flattening once, so an
already-flat name is returned unchanged — and on the spec's examples
flattening `("Name", "Full")` yields `name_full` and `"Country"` yields
`country`. -/
theorem C4_flatten_idempotent :
    (∀ h : Header, flatten_col (Header.single (flatten_col h)) = flatten_col h)
    ∧ flatten_col (Header.multi [codes "Name", codes "Full"]) = codes "name_full"
    ∧ flatten_col (Header.single (codes "Country")) = codes "country" := by
  exact ⟨fun h => flatten_col_idem h, by decide, by decide⟩

/-- C5 (counterexample): flattening each table's headers before
concatenation is not equivalent to the implementation's
flatten-after-concatenation: with one table headed `A B` and another
headed `a_b`, the two raw labels stay distinct during alignment in the
implementation (giving duplicate flattened columns), while the spec's
order merges them. -/
theorem C5_counterexample :
    spec_extract simpleParse docAB ≠ get_cardinals_data simpleParse docAB := by
  decide

/-- C5 (amended): flattening each table's headers independently before
concatenation produces the same Output Dataset as the implementation
provided flattening is injective on the processed tables' column labels,
i.e. no two distinct raw labels collide after flattening. -/
theorem C5_amended (parse : HtmlTable → DataFrame) (doc : Document)
    (hinj : ∀ x ∈ ((markedTables doc).map
        (fun t => processTable (parse t) t)).flatMap (fun d => d.cols),
      ∀ y ∈ ((markedTables doc).map
        (fun t => processTable (parse t) t)).flatMap (fun d => d.cols),
      flatten_col x = flatten_col y → x = y) :
    spec_extract parse doc = get_cardinals_data parse doc := by
  simp only [spec_extract, get_cardinals_data]
  have h1 : (markedTables doc).map
        (fun t => renameFlatten (processTable (parse t) t))
      = ((markedTables doc).map
        (fun t => processTable (parse t) t)).map renameFlatten := by
    rw [List.map_map]
    rfl
  rw [h1]
  refine pdConcat_map_rename _ (fun x hx y hy e => hinj x hx y hy ?_)
  simpa [flattenLabel] using e

/-- C5 (witness): on a document whose processed table has the three
distinct flattened labels `name`, `country`, `eligible`, the two orders
agree. -/
theorem C5_amended_witness :
    spec_extract simpleParse docC1 = get_cardinals_data simpleParse docC1 :=
  C5_amended simpleParse docC1 (by decide)

/-- C6 (confirmed): the Output Dataset stacks all marked tables' records —
its row count is the sum of the per-table row counts — and on a document
with two marked tables of 2 and 3 body rows the output has exactly the 5
rows in document order, the first table's rows first. -/
theorem C6_concat_order (parse : HtmlTable → DataFrame) (doc : Document)
    (out : DataFrame)
    (h : get_cardinals_data parse doc = some out) :
    out.rows.length = (((markedTables doc).map
      (fun t => processTable (parse t) t)).map (fun d => d.rows.length)).sum
    ∧ get_cardinals_data simpleParse doc23 = some expected23 := by
  refine ⟨?_, by decide⟩
  simp only [get_cardinals_data] at h
  obtain ⟨c, hc, rfl⟩ := Option.map_eq_some'.mp h
  have hl := pdConcat_rows_length _ c hc
  simpa [renameFlatten] using hl

/-- C6 (witness): the 2-and-3-row document instantiates the row-count
sum. -/
theorem C6_concat_order_witness :
    expected23.rows.length = (((markedTables doc23).map
      (fun t => processTable (simpleParse t) t)).map
        (fun d => d.rows.length)).sum :=
  (C6_concat_order simpleParse doc23 expected23 (by decide)).1

/-- C7 (confirmed): with `force_refresh` false and a cached copy present,
the fetch phase makes zero network calls, returns exactly the cached
content, and leaves the cache unchanged. -/
theorem C7_cache_hit (c : List Nat) (env : FetchEnv) :
    fetchPage false (some c) env =
      { outcome := .ok c, cacheAfter := some c, networkCalls := 0 } := rfl

/-- C8 (confirmed): with `force_refresh` true or no cached copy, the fetch
phase makes exactly one network call; on a non-2xx status it raises the
HTTP-status error (leaving the cache as it was), and on success it stores
the full response body in the cache, overwriting any prior content, and
returns that body. -/
theorem C8_forced_or_cold_fetch (fr : Bool) (cache : Option (List Nat))
    (env : FetchEnv) (h : fr = true ∨ cache = none) :
    (fetchPage fr cache env).networkCalls = 1
    ∧ (200 ≤ env.status ∧ env.status ≤ 299 →
        fetchPage fr cache env =
          { outcome := .ok env.body, cacheAfter := some env.body,
            networkCalls := 1 })
    ∧ (¬ (200 ≤ env.status ∧ env.status ≤ 299) →
        (fetchPage fr cache env).outcome =
          .error (FetchError.httpStatus env.status)) := by
  have hred : fetchPage fr cache env =
      if 200 ≤ env.status ∧ env.status ≤ 299 then
        { outcome := .ok env.body, cacheAfter := some env.body,
          networkCalls := 1 }
      else
        { outcome := .error (FetchError.httpStatus env.status),
          cacheAfter := cache, networkCalls := 1 } := by
    rcases h with rfl | rfl
    · rfl
    · cases fr <;> rfl
  rw [hred]
  by_cases hs : 200 ≤ env.status ∧ env.status ≤ 299
  · rw [if_pos hs]
    exact ⟨rfl, fun _ => rfl, fun hn => absurd hs hn⟩
  · rw [if_neg hs]
    exact ⟨rfl, fun hp => absurd hp hs, fun _ => rfl⟩

/-- C8 (witness): a forced refresh against an existing cache performs one
call and overwrites the cache with the new body. -/
theorem C8_forced_or_cold_fetch_witness :
    ((true : Bool) = true ∨ (some (codes "old") : Option (List Nat)) = none)
    ∧ fetchPage true (some (codes "old")) { status := 200, body := codes "new" }
        = { outcome := .ok (codes "new"), cacheAfter := some (codes "new"),
            networkCalls := 1 } := by
  have h := C8_forced_or_cold_fetch true (some (codes "old"))
    { status := 200, body := codes "new" } (Or.inl rfl)
  exact ⟨Or.inl rfl, h.2.1 (by decide)⟩

/-- C9 (confirmed): a fetch that raises on a non-success status leaves the
cache exactly as it was — the error is raised before any cache write, so a
prior cached copy is never overwritten by a failed fetch. -/
theorem C9_failed_fetch_keeps_cache (fr : Bool) (cache : Option (List Nat))
    (env : FetchEnv) (e : FetchError)
    (h : (fetchPage fr cache env).outcome = .error e) :
    (fetchPage fr cache env).cacheAfter = cache := by
  cases fr with
  | false =>
      cases cache with
      | some c => simp [fetchPage] at h
      | none =>
          simp only [fetchPage] at h ⊢
          split at h
          · simp at h
          · rename_i hP
            rw [if_neg hP]
  | true =>
      cases cache with
      | some c =>
          simp only [fetchPage] at h ⊢
          split at h
          · simp at h
          · rename_i hP
            rw [if_neg hP]
      | none =>
          simp only [fetchPage] at h ⊢
          split at h
          · simp at h
          · rename_i hP
            rw [if_neg hP]

/-- C10 (confirmed): multi-level flattening drops the parts that are empty
or equal to the literal string `nan` — filtering them away beforehand does
not change the result, and the spec's example drops both kinds — while a
single-level header is never filtered: the plain header `nan` flattens to
`nan` rather than vanishing. -/
theorem C10_nan_filtering :
    (∀ parts : List (List Nat),
      flatten_col (Header.multi parts)
        = flatten_col (Header.multi (parts.filter
            (fun c => !c.isEmpty && !(c == codes "nan")))))
    ∧ flatten_col (Header.multi [codes "Name", codes "nan", [], codes "Full"])
      = codes "name_full"
    ∧ flatten_col (Header.single (codes "nan")) = codes "nan" := by
  refine ⟨?_, by decide, by decide⟩
  intro parts
  simp only [flatten_col, List.filter_filter, Bool.and_self]

/-- C9 (witness): a forced fetch meeting a 404 leaves the old cache in
place. -/
theorem C9_failed_fetch_keeps_cache_witness :
    (fetchPage true (some (codes "old"))
      { status := 404, body := codes "x" }).outcome
        = .error (FetchError.httpStatus 404)
    ∧ (fetchPage true (some (codes "old"))
      { status := 404, body := codes "x" }).cacheAfter = some (codes "old") :=
  ⟨rfl, C9_failed_fetch_keeps_cache true (some (codes "old"))
    { status := 404, body := codes "x" } (FetchError.httpStatus 404) rfl⟩

end Conclave
